import Mathlib

/- Verification of the Gerrit AI-review core: a shallow embedding of the
stdio JSON-RPC tool server (gerritMcpServer.ts) and of the cursor-agent
supervisor (invokeCursorAgent), together with proofs of the behavioural
properties claimed for them.  JavaScript platform functions that the source
relies on (JSON.parse, JSON.stringify, String.prototype.trim,
String.prototype.split, Buffer base64/utf-8 codecs) are modelled
executably below. -/

namespace Gerrit

/- ── Character classes ──────────────────────────────────────────────
JSON whitespace (RFC 8259) is only space, tab, line feed, carriage return.
JavaScript String.prototype.trim additionally removes the ECMA-262
WhiteSpace and LineTerminator code points. -/

def isJsonWs (c : Char) : Bool :=
  c.toNat = 32 || c.toNat = 9 || c.toNat = 10 || c.toNat = 13

def isJsWs (c : Char) : Bool :=
  isJsonWs c || c.toNat = 11 || c.toNat = 12 || c.toNat = 160 ||
  c.toNat = 0x1680 || (0x2000 ≤ c.toNat && c.toNat ≤ 0x200A) ||
  c.toNat = 0x2028 || c.toNat = 0x2029 || c.toNat = 0x202F ||
  c.toNat = 0x205F || c.toNat = 0x3000 || c.toNat = 0xFEFF

def isDigitC (c : Char) : Bool := 48 ≤ c.toNat && c.toNat ≤ 57

def isAlphaC (c : Char) : Bool :=
  (65 ≤ c.toNat && c.toNat ≤ 90) || (97 ≤ c.toNat && c.toNat ≤ 122)

/- Characters that may continue a JSON numeral once one has started. -/
def isNumC (c : Char) : Bool :=
  isDigitC c || c = '.' || c = 'e' || c = 'E' || c = '+' || c = '-'

/- ── JavaScript String.prototype.trim ──────────────────────────────── -/

def stripLeft (s : List Char) : List Char := s.dropWhile isJsWs

def stripRight (s : List Char) : List Char :=
  (s.reverse.dropWhile isJsWs).reverse

def jsTrim (s : List Char) : List Char := stripRight (stripLeft s)

/- ── stripMagic (gerritMcpServer.ts, lines 50-55) ──────────────────
const MAGIC_PREFIX = ")]}'";  if the body starts with it, slice it off and
trim, otherwise trim the body as-is. -/

def magicChars : List Char := [')', ']', '\x7d', '\x27']

def stripMagic (body : List Char) : List Char :=
  if magicChars.isPrefixOf body then jsTrim (body.drop magicChars.length)
  else jsTrim body

/- ── JSON values (the result of the modelled JSON.parse) ────────────
Numerals are kept as their source text: the trim/strip theorems compare
parses of the same numeral text, so no numeric interpretation is needed. -/

inductive Json where
  | nul : Json
  | bool (b : Bool) : Json
  | num (text : List Char) : Json
  | str (s : List Char) : Json
  | arr (elems : List Json) : Json
  | obj (members : List (List Char × Json)) : Json

/- ── JSON lexer ─────────────────────────────────────────────────────
String tokens carry their decoded contents, numeral and bareword tokens
their raw text (validated later by the parser). -/

inductive Tok where
  | lbrace : Tok
  | rbrace : Tok
  | lbrack : Tok
  | rbrack : Tok
  | comma : Tok
  | colon : Tok
  | strT (s : List Char) : Tok
  | numT (s : List Char) : Tok
  | wordT (s : List Char) : Tok
deriving DecidableEq

/- Scan the raw text of a string literal after its opening quote up to the
closing unescaped quote; keeps escapes undecoded. -/
def scanStr : List Char → Option (List Char × List Char)
  | [] => none
  | c :: rest =>
    if c = '"' then some ([], rest)
    else if c = '\\' then
      match rest with
      | [] => none
      | c2 :: rest2 =>
        match scanStr rest2 with
        | some (raw, rest') => some (c :: c2 :: raw, rest')
        | none => none
    else if c.toNat < 32 then none
    else
      match scanStr rest with
      | some (raw, rest') => some (c :: raw, rest')
      | none => none

def hexVal (c : Char) : Option Nat :=
  if 48 ≤ c.toNat ∧ c.toNat ≤ 57 then some (c.toNat - 48)
  else if 97 ≤ c.toNat ∧ c.toNat ≤ 102 then some (c.toNat - 87)
  else if 65 ≤ c.toNat ∧ c.toNat ≤ 70 then some (c.toNat - 55)
  else none

/- Decode the escape sequences of a scanned string body. -/
def decodeStr : List Char → Option (List Char)
  | [] => some []
  | '\\' :: 'u' :: a :: b :: c :: d :: rest =>
    match hexVal a, hexVal b, hexVal c, hexVal d with
    | some ha, some hb, some hc, some hd =>
      match decodeStr rest with
      | some t => some (Char.ofNat (((ha * 16 + hb) * 16 + hc) * 16 + hd) :: t)
      | none => none
    | _, _, _, _ => none
  | '\\' :: e :: rest =>
    match
      (if e = '"' then some '"'
       else if e = '\\' then some '\\'
       else if e = '/' then some '/'
       else if e = 'b' then some '\x08'
       else if e = 'f' then some '\x0c'
       else if e = 'n' then some '\n'
       else if e = 'r' then some '\x0d'
       else if e = 't' then some '\t'
       else none : Option Char) with
    | some ch =>
      match decodeStr rest with
      | some t => some (ch :: t)
      | none => none
    | none => none
  | c :: rest =>
    match decodeStr rest with
    | some t => some (c :: t)
    | none => none

/- One token of maximal-munch lexing.  Consumes at least one character. -/
def lexTok : List Char → Option (Tok × List Char)
  | [] => none
  | c :: cs =>
    if c = '\x7b' then some (.lbrace, cs)
    else if c = '\x7d' then some (.rbrace, cs)
    else if c = '[' then some (.lbrack, cs)
    else if c = ']' then some (.rbrack, cs)
    else if c = ',' then some (.comma, cs)
    else if c = ':' then some (.colon, cs)
    else if c = '"' then
      match scanStr cs with
      | some (raw, rest) =>
        match decodeStr raw with
        | some s => some (.strT s, rest)
        | none => none
      | none => none
    else if c = '-' || isDigitC c then
      some (.numT (c :: cs.takeWhile isNumC), cs.dropWhile isNumC)
    else if isAlphaC c then
      some (.wordT (c :: cs.takeWhile isAlphaC), cs.dropWhile isAlphaC)
    else none

/- The token stream of a JSON document: inter-token whitespace is the JSON
whitespace set.  Fuel-indexed; `lex` supplies enough fuel. -/
def lexLoop : Nat → List Char → Option (List Tok)
  | _, [] => some []
  | 0, _ :: _ => none
  | n + 1, c :: cs =>
    if isJsonWs c then lexLoop n cs
    else
      match lexTok (c :: cs) with
      | some (t, rest) =>
        match lexLoop n rest with
        | some ts => some (t :: ts)
        | none => none
      | none => none

def lex (s : List Char) : Option (List Tok) := lexLoop s.length s

/- ── JSON numeral grammar: -?(0|[1-9][0-9]*)(.[0-9]+)?([eE][+-]?[0-9]+)? ── -/

def numIntRest : List Char → Option (List Char)
  | [] => none
  | c :: r =>
    if c = '0' then some r
    else if isDigitC c then some (r.dropWhile isDigitC)
    else none

def numFracRest : List Char → Option (List Char)
  | '.' :: r =>
    if (r.takeWhile isDigitC).isEmpty then none
    else some (r.dropWhile isDigitC)
  | r => some r

def numExpRest : List Char → Option (List Char)
  | [] => some []
  | c :: r =>
    if c = 'e' || c = 'E' then
      let r2 := match r with
        | s :: r' => if s = '+' || s = '-' then r' else s :: r'
        | [] => []
      if (r2.takeWhile isDigitC).isEmpty then none
      else some (r2.dropWhile isDigitC)
    else some (c :: r)

def isValidNum (s : List Char) : Bool :=
  let s0 := match s with
    | '-' :: r => r
    | r => r
  match numIntRest s0 with
  | none => false
  | some r1 =>
    match numFracRest r1 with
    | none => false
    | some r2 =>
      match numExpRest r2 with
      | some [] => true
      | _ => false

/- ── Token-stream parser (recursive descent, fuel-indexed) ────────── -/

def trueChars : List Char := ['t', 'r', 'u', 'e']
def falseChars : List Char := ['f', 'a', 'l', 's', 'e']
def nullChars : List Char := ['n', 'u', 'l', 'l']

mutual

def parseVal : Nat → List Tok → Option (Json × List Tok)
  | 0, _ => none
  | _ + 1, [] => none
  | n + 1, t :: ts =>
    match t with
    | .strT s => some (.str s, ts)
    | .numT s => if isValidNum s then some (.num s, ts) else none
    | .wordT s =>
      if s = trueChars then some (.bool true, ts)
      else if s = falseChars then some (.bool false, ts)
      else if s = nullChars then some (.nul, ts)
      else none
    | .lbrack =>
      match ts with
      | .rbrack :: ts2 => some (.arr [], ts2)
      | _ =>
        match parseItems n ts with
        | some (vs, ts2) => some (.arr vs, ts2)
        | none => none
    | .lbrace =>
      match ts with
      | .rbrace :: ts2 => some (.obj [], ts2)
      | _ =>
        match parseMembers n ts with
        | some (ms, ts2) => some (.obj ms, ts2)
        | none => none
    | _ => none

def parseItems : Nat → List Tok → Option (List Json × List Tok)
  | 0, _ => none
  | n + 1, ts =>
    match parseVal n ts with
    | some (v, .comma :: ts2) =>
      match parseItems n ts2 with
      | some (vs, ts3) => some (v :: vs, ts3)
      | none => none
    | some (v, .rbrack :: ts2) => some ([v], ts2)
    | _ => none

def parseMembers : Nat → List Tok → Option (List (List Char × Json) × List Tok)
  | 0, _ => none
  | n + 1, .strT k :: .colon :: ts =>
    match parseVal n ts with
    | some (v, .comma :: ts2) =>
      match parseMembers n ts2 with
      | some (ms, ts3) => some ((k, v) :: ms, ts3)
      | none => none
    | some (v, .rbrace :: ts2) => some ([(k, v)], ts2)
    | _ => none
  | _ + 1, _ => none

end

/- A full document is one value surrounded by nothing but whitespace, which
the lexer has already discarded. -/
def parseToks (ts : List Tok) : Option Json :=
  match parseVal (2 * ts.length + 4) ts with
  | some (v, []) => some v
  | _ => none

/- Model of JavaScript JSON.parse applied to the listed characters. -/
def parseJson (s : List Char) : Option Json :=
  match lex s with
  | some ts => parseToks ts
  | none => none

/- ── JavaScript argument values ─────────────────────────────────────
Tool arguments arrive as arbitrary JSON-RPC values; the handlers only
distinguish the shapes below (a missing property reads as undefined).
Numbers are modelled as integers: no handler computes with them. -/

inductive JsVal where
  | undefinedV : JsVal
  | null : JsVal
  | bool (b : Bool) : JsVal
  | num (n : Int) : JsVal
  | str (s : String) : JsVal
deriving DecidableEq, Repr

/- JavaScript String(v) coercion for the shapes above. -/
def jsToString : JsVal → String
  | .undefinedV => "undefined"
  | .null => "null"
  | .bool true => "true"
  | .bool false => "false"
  | .num n => toString n
  | .str s => s

/- v === false -/
def jsIsFalse : JsVal → Bool
  | .bool false => true
  | _ => false

/- typeof v === \x27number\x27 -/
def jsIsNumber : JsVal → Bool
  | .num _ => true
  | _ => false

abbrev ToolArgs := List (String × JsVal)

/- JavaScript property access args.k (missing property => undefined). -/
def getArg (args : ToolArgs) (k : String) : JsVal :=
  match args.lookup k with
  | some v => v
  | none => .undefinedV

/- ── Environment configuration (gerritMcpServer.ts, lines 18-22) ────
GERRIT_URL, GERRIT_USERNAME, GERRIT_PASSWORD, GERRIT_AUTH_COOKIE and
GERRIT_AUTH_PREFIX (default "a/", stored here as authPart). -/

structure GerritConfig where
  url : String
  username : String
  password : String
  authCookie : String
  authPart : String
deriving DecidableEq, Repr

/- ── UTF-8 and base64 codecs (Node Buffer, modelled) ──────────────── -/

def utf8Char (c : Char) : List Nat :=
  let n := c.toNat
  if n < 0x80 then [n]
  else if n < 0x800 then [0xC0 + n / 64, 0x80 + n % 64]
  else if n < 0x10000 then
    [0xE0 + n / 4096, 0x80 + n / 64 % 64, 0x80 + n % 64]
  else
    [0xF0 + n / 262144, 0x80 + n / 4096 % 64, 0x80 + n / 64 % 64,
     0x80 + n % 64]

def utf8Bytes (s : List Char) : List Nat :=
  s.foldr (fun c acc => utf8Char c ++ acc) []

def b64Alphabet : List Char :=
  "ABCDEFGHIJKLMNOPQRSTUVWXYZabcdefghijklmnopqrstuvwxyz0123456789+/".toList

def b64Char (n : Nat) : Char := b64Alphabet.getD n '='

def base64Chunk : List Nat → List Char
  | [] => []
  | [a] => [b64Char (a / 4), b64Char (a % 4 * 16), '=', '=']
  | [a, b] => [b64Char (a / 4), b64Char (a % 4 * 16 + b / 16),
               b64Char (b % 16 * 4), '=']
  | a :: b :: c :: rest =>
    b64Char (a / 4) :: b64Char (a % 4 * 16 + b / 16) ::
    b64Char (b % 16 * 4 + c / 64) :: b64Char (c % 64) :: base64Chunk rest

def base64Encode (s : String) : String :=
  String.mk (base64Chunk (utf8Bytes s.toList))

def b64Val (c : Char) : Option Nat :=
  if 65 ≤ c.toNat ∧ c.toNat ≤ 90 then some (c.toNat - 65)
  else if 97 ≤ c.toNat ∧ c.toNat ≤ 122 then some (c.toNat - 71)
  else if 48 ≤ c.toNat ∧ c.toNat ≤ 57 then some (c.toNat + 4)
  else if c = '+' then some 62
  else if c = '/' then some 63
  else none

def base64DecodeChunk : List Char → List Nat
  | a :: b :: c :: d :: rest =>
    match b64Val a, b64Val b with
    | some va, some vb =>
      let b1 := va * 4 + vb / 16
      match b64Val c with
      | some vc =>
        let b2 := vb % 16 * 16 + vc / 4
        match b64Val d with
        | some vd => b1 :: b2 :: (vc % 4 * 64 + vd) :: base64DecodeChunk rest
        | none => [b1, b2]
      | none => [b1]
    | _, _ => []
  | _ => []

def utf8Decode : List Nat → List Char
  | [] => []
  | b :: rest =>
    if b < 0x80 then Char.ofNat b :: utf8Decode rest
    else if 0xC0 ≤ b ∧ b < 0xE0 then
      match rest with
      | b2 :: rest2 =>
        Char.ofNat ((b - 0xC0) * 64 + b2 % 64) :: utf8Decode rest2
      | [] => ['�']
    else if 0xE0 ≤ b ∧ b < 0xF0 then
      match rest with
      | b2 :: b3 :: rest3 =>
        Char.ofNat (((b - 0xE0) * 64 + b2 % 64) * 64 + b3 % 64) ::
          utf8Decode rest3
      | _ => ['�']
    else if 0xF0 ≤ b then
      match rest with
      | b2 :: b3 :: b4 :: rest4 =>
        Char.ofNat ((((b - 0xF0) * 64 + b2 % 64) * 64 + b3 % 64) * 64
          + b4 % 64) :: utf8Decode rest4
      | _ => ['�']
    else '�' :: utf8Decode rest

/- Buffer.from(raw, \x27base64\x27).toString(\x27utf-8\x27) -/
def decodeBase64Utf8 (raw : String) : String :=
  String.mk (utf8Decode (base64DecodeChunk raw.toList))

/- ── JSON.stringify(v, null, 2) (modelled) ─────────────────────────── -/

def hexDigit (n : Nat) : Char := "0123456789abcdef".toList.getD n '0'

def escChar (c : Char) : List Char :=
  if c = '"' then ['\\', '"']
  else if c = '\\' then ['\\', '\\']
  else if c = '\n' then ['\\', 'n']
  else if c = '\x0d' then ['\\', 'r']
  else if c = '\t' then ['\\', 't']
  else if c = '\x08' then ['\\', 'b']
  else if c = '\x0c' then ['\\', 'f']
  else if c.toNat < 32 then
    ['\\', 'u', '0', '0', hexDigit (c.toNat / 16), hexDigit (c.toNat % 16)]
  else [c]

def escString (s : List Char) : List Char :=
  '"' :: s.foldr (fun c acc => escChar c ++ acc) ['"']

def pad (n : Nat) : List Char := List.replicate n ' '

mutual

def stringifyV : Nat → Json → List Char
  | _, .nul => nullChars
  | _, .bool true => trueChars
  | _, .bool false => falseChars
  | _, .num s => s
  | _, .str s => escString s
  | _, .arr [] => ['[', ']']
  | ind, .arr (v :: vs) =>
    '[' :: '\n' :: stringifyArr (ind + 2) v vs ++
    '\n' :: pad ind ++ [']']
  | _, .obj [] => ['\x7b', '\x7d']
  | ind, .obj (m :: ms) =>
    '\x7b' :: '\n' :: stringifyObj (ind + 2) m ms ++
    '\n' :: pad ind ++ ['\x7d']
termination_by _ v => sizeOf v
decreasing_by all_goals (simp_wf; all_goals omega)

def stringifyArr : Nat → Json → List Json → List Char
  | ind, v, [] => pad ind ++ stringifyV ind v
  | ind, v, w :: vs =>
    pad ind ++ stringifyV ind v ++ ',' :: '\n' :: stringifyArr ind w vs
termination_by _ v vs => sizeOf v + sizeOf vs
decreasing_by all_goals (simp_wf; all_goals omega)

def stringifyObj : Nat → List Char × Json → List (List Char × Json) →
    List Char
  | ind, (k, v), [] => pad ind ++ escString k ++ ':' :: ' ' :: stringifyV ind v
  | ind, (k, v), m :: ms =>
    pad ind ++ escString k ++ ':' :: ' ' :: stringifyV ind v ++
    ',' :: '\n' :: stringifyObj ind m ms
termination_by _ m ms => sizeOf m + sizeOf ms
decreasing_by all_goals (simp_wf; all_goals omega)

end

/- JSON.stringify(data, null, 2) as used by the tool handlers. -/
def stringifyPretty (v : Json) : String := String.mk (stringifyV 0 v)

/- ── HTTP requests issued through got (gerritMcpServer.ts, lines 57-95)
The request descriptor captures every option the source passes to got.
The PUT body is kept structurally (the source serialises it with
JSON.stringify before sending); key order is JS insertion order. -/

structure HttpRequest where
  method : String
  url : String
  headers : List (String × String)
  body : Option (List (String × JsVal))
  cookieJar : Option String
  rejectUnauthorized : Bool
deriving DecidableEq, Repr

/- gerritHeaders (lines 28-42): Content-Type when sending a body, Basic auth
only when both username and password are truthy (non-empty). -/
def gerritHeaders (cfg : GerritConfig) (withContent : Bool) :
    List (String × String) :=
  (if withContent then [("Content-Type", "application/json")] else []) ++
  (if cfg.username ≠ "" ∧ cfg.password ≠ "" then
    [("Authorization",
      "Basic " ++ base64Encode (cfg.username ++ ":" ++ cfg.password))]
   else [])

/- buildCookieJar (lines 97-108): a jar serving GerritAccount=<cookie>,
present only when the cookie is truthy (non-empty). -/
def buildCookieJar (cfg : GerritConfig) : Option String :=
  if cfg.authCookie = "" then none
  else some ("GerritAccount=" ++ cfg.authCookie)

/- gerritUrl (lines 44-48). -/
def gerritUrl (cfg : GerritConfig) (path : String) : String :=
  (if cfg.url.endsWith "/" then cfg.url else cfg.url ++ "/") ++
  cfg.authPart ++ path

def gerritGetRequest (cfg : GerritConfig) (path : String) : HttpRequest :=
  { method := "GET"
    url := gerritUrl cfg path
    headers := gerritHeaders cfg false
    body := none
    cookieJar := buildCookieJar cfg
    rejectUnauthorized := false }

def gerritPutRequest (cfg : GerritConfig) (path : String)
    (body : List (String × JsVal)) : HttpRequest :=
  { method := "PUT"
    url := gerritUrl cfg path
    headers := gerritHeaders cfg true
    body := some body
    cookieJar := buildCookieJar cfg
    rejectUnauthorized := false }

/- The network environment: what the Gerrit server answers (the response
body) or what got throws (HTTP failure, network failure). -/
abbrev Oracle := HttpRequest → Except String String

/- Each gateway operation returns the trace of requests it issued together
with its result; a thrown exception is the error side. -/

def gerritGet (cfg : GerritConfig) (net : Oracle) (path : String) :
    List HttpRequest × Except String Json :=
  let req := gerritGetRequest cfg path
  ([req],
    match net req with
    | .error e => .error e
    | .ok body =>
      match parseJson (stripMagic body.toList) with
      | some v => .ok v
      | none => .error "Unexpected token in JSON")

def gerritGetRaw (cfg : GerritConfig) (net : Oracle) (path : String) :
    List HttpRequest × Except String String :=
  ([gerritGetRequest cfg path], net (gerritGetRequest cfg path))

def gerritPut (cfg : GerritConfig) (net : Oracle) (path : String)
    (body : List (String × JsVal)) : List HttpRequest × Except String Json :=
  let req := gerritPutRequest cfg path body
  ([req],
    match net req with
    | .error e => .error e
    | .ok respBody =>
      match parseJson (stripMagic respBody.toList) with
      | some v => .ok v
      | none => .error "Unexpected token in JSON")

/- ── Tool registry (gerritMcpServer.ts, lines 112-271) ──────────────
Property descriptions of the input schemas are elided; the property names,
their types and the required lists are kept verbatim. -/

structure ToolDef where
  name : String
  description : String
  properties : List (String × String)
  required : List String
deriving DecidableEq, Repr

def TOOLS : List ToolDef :=
  [{ name := "gerrit_get_change"
     description := "Get change metadata including subject, owner, branch, status, commit message, insertions, and deletions."
     properties := [("changeNumber", "string")]
     required := ["changeNumber"] },
   { name := "gerrit_get_changed_files"
     description := "List all files changed in the current patchset with lines inserted/deleted."
     properties := [("changeNumber", "string")]
     required := ["changeNumber"] },
   { name := "gerrit_get_file_content"
     description := "Get the full content of a file in the current patchset revision."
     properties := [("changeNumber", "string"), ("filePath", "string")]
     required := ["changeNumber", "filePath"] },
   { name := "gerrit_get_comments"
     description := "Get all published comments on a change, grouped by file."
     properties := [("changeNumber", "string")]
     required := ["changeNumber"] },
   { name := "gerrit_get_draft_comments"
     description := "Get all existing draft comments on a change."
     properties := [("changeNumber", "string")]
     required := ["changeNumber"] },
   { name := "gerrit_post_draft_comment"
     description := "Post a new draft comment on a specific file and line. Use /PATCHSET_LEVEL as filePath for patchset-level comments."
     properties := [("changeNumber", "string"), ("filePath", "string"),
                    ("line", "number"), ("message", "string"),
                    ("unresolved", "boolean")]
     required := ["changeNumber", "filePath", "message"] },
   { name := "gerrit_reply_to_comment"
     description := "Reply to an existing comment thread. Uses in_reply_to to chain comments."
     properties := [("changeNumber", "string"), ("filePath", "string"),
                    ("message", "string"), ("inReplyTo", "string")]
     required := ["changeNumber", "filePath", "message", "inReplyTo"] }]

/- ── Tool handlers (gerritMcpServer.ts, lines 277-392) ──────────────
None of them validates its arguments: each coerces what it finds with
String(...) and issues its REST call directly. -/

def handleGetChange (cfg : GerritConfig) (net : Oracle) (args : ToolArgs) :
    List HttpRequest × Except String String :=
  let cn := jsToString (getArg args "changeNumber")
  let r := gerritGet cfg net
    ("changes/" ++ cn ++
     "/detail/?o=CURRENT_REVISION&o=CURRENT_COMMIT&o=DETAILED_ACCOUNTS")
  (r.1, r.2.map stringifyPretty)

def handleGetChangedFiles (cfg : GerritConfig) (net : Oracle)
    (args : ToolArgs) : List HttpRequest × Except String String :=
  let cn := jsToString (getArg args "changeNumber")
  let r := gerritGet cfg net ("changes/" ++ cn ++ "/revisions/current/files")
  (r.1, r.2.map stringifyPretty)

/- encodeURIComponent, modelled: unreserved characters pass through,
everything else is percent-encoded per UTF-8 byte. -/
def uriUnreserved (c : Char) : Bool :=
  isAlphaC c || isDigitC c || c = '-' || c = '_' || c = '.' || c = '~' ||
  c = '!' || c = '*' || c = '\x27' || c = '(' || c = ')'

def hexDigitU (n : Nat) : Char := "0123456789ABCDEF".toList.getD n '0'

def pctByte (b : Nat) : List Char :=
  ['%', hexDigitU (b / 16), hexDigitU (b % 16)]

def encodeURIComponent (s : String) : String :=
  String.mk (s.toList.foldr
    (fun c acc =>
      if uriUnreserved c then c :: acc
      else (utf8Char c).foldr (fun b acc2 => pctByte b ++ acc2) acc)
    [])

def handleGetFileContent (cfg : GerritConfig) (net : Oracle)
    (args : ToolArgs) : List HttpRequest × Except String String :=
  let cn := jsToString (getArg args "changeNumber")
  let fp := jsToString (getArg args "filePath")
  let r := gerritGetRaw cfg net
    ("changes/" ++ cn ++ "/revisions/current/files/" ++
     encodeURIComponent fp ++ "/content")
  (r.1, r.2.map decodeBase64Utf8)

def handleGetComments (cfg : GerritConfig) (net : Oracle) (args : ToolArgs) :
    List HttpRequest × Except String String :=
  let cn := jsToString (getArg args "changeNumber")
  let r := gerritGet cfg net ("changes/" ++ cn ++ "/comments/")
  (r.1, r.2.map stringifyPretty)

def handleGetDraftComments (cfg : GerritConfig) (net : Oracle)
    (args : ToolArgs) : List HttpRequest × Except String String :=
  let cn := jsToString (getArg args "changeNumber")
  let r := gerritGet cfg net ("changes/" ++ cn ++ "/drafts/")
  (r.1, r.2.map stringifyPretty)

/- handlePostDraft (lines 358-375): unresolved defaults to true and is
false only when the argument is strictly false; line is attached only when
the argument is a number. -/
def postDraftBody (args : ToolArgs) : List (String × JsVal) :=
  [("path", .str (jsToString (getArg args "filePath"))),
   ("message", .str (jsToString (getArg args "message"))),
   ("unresolved", .bool (!jsIsFalse (getArg args "unresolved")))] ++
  (if jsIsNumber (getArg args "line") then [("line", getArg args "line")]
   else [])

def handlePostDraft (cfg : GerritConfig) (net : Oracle) (args : ToolArgs) :
    List HttpRequest × Except String String :=
  let cn := jsToString (getArg args "changeNumber")
  let r := gerritPut cfg net
    ("changes/" ++ cn ++ "/revisions/current/drafts") (postDraftBody args)
  (r.1, r.2.map stringifyPretty)

/- handleReplyToComment (lines 377-392): reply drafts are always resolved. -/
def replyBody (args : ToolArgs) : List (String × JsVal) :=
  [("path", .str (jsToString (getArg args "filePath"))),
   ("message", .str (jsToString (getArg args "message"))),
   ("in_reply_to", .str (jsToString (getArg args "inReplyTo"))),
   ("unresolved", .bool false)]

def handleReplyToComment (cfg : GerritConfig) (net : Oracle)
    (args : ToolArgs) : List HttpRequest × Except String String :=
  let cn := jsToString (getArg args "changeNumber")
  let r := gerritPut cfg net
    ("changes/" ++ cn ++ "/revisions/current/drafts") (replyBody args)
  (r.1, r.2.map stringifyPretty)

/- handleTool (lines 277-299): dispatch by name; an unknown name throws. -/
def handleTool (cfg : GerritConfig) (net : Oracle) (name : String)
    (args : ToolArgs) : List HttpRequest × Except String String :=
  if name = "gerrit_get_change" then handleGetChange cfg net args
  else if name = "gerrit_get_changed_files" then
    handleGetChangedFiles cfg net args
  else if name = "gerrit_get_file_content" then
    handleGetFileContent cfg net args
  else if name = "gerrit_get_comments" then handleGetComments cfg net args
  else if name = "gerrit_get_draft_comments" then
    handleGetDraftComments cfg net args
  else if name = "gerrit_post_draft_comment" then handlePostDraft cfg net args
  else if name = "gerrit_reply_to_comment" then
    handleReplyToComment cfg net args
  else ([], .error ("Unknown tool: " ++ name))

/- ── JSON-RPC layer (gerritMcpServer.ts, lines 396-502) ─────────────
The id of a message: absent, null, a number or a string.  NaN is not
representable in the Int model; no handler computes with ids. -/

inductive JsId where
  | absent : JsId
  | null : JsId
  | num (n : Int) : JsId
  | str (s : String) : JsId
deriving DecidableEq, Repr

/- JavaScript truthiness test !msg.id on the id shapes above. -/
def idFalsy : JsId → Bool
  | .absent => true
  | .null => true
  | .num n => n = 0
  | .str s => s = ""

/- msg.params cast to \x7bname, arguments?\x7d; absent params make the
p.name access throw a TypeError caught by the outer catch. -/
structure ToolCallParams where
  name : String
  arguments : Option ToolArgs
deriving DecidableEq, Repr

structure RpcRequest where
  jsonrpc : String
  id : JsId
  method : String
  params : Option ToolCallParams
deriving DecidableEq, Repr

/- The payload of makeResult, structurally: the fixed initialize envelope,
the tool catalog, or a tools/call content payload.  isError models the
optional isError member (absent on success). -/
inductive RpcResult where
  | initInfo : RpcResult
  | toolsList (tools : List ToolDef) : RpcResult
  | toolContent (text : String) (isError : Bool) : RpcResult
deriving DecidableEq, Repr

/- One line written by sendResponse: makeResult or makeError. -/
inductive RpcOut where
  | result (id : JsId) (r : RpcResult) : RpcOut
  | rpcError (id : JsId) (code : Int) (message : String) : RpcOut
deriving DecidableEq, Repr

def typeErrorText : String :=
  "Cannot read properties of undefined (reading \x27name\x27)"

/- The method switch (lines 444-501): every arm, including the outer
catch for an absent params object, calls sendResponse exactly once. -/
def dispatchResponse (cfg : GerritConfig) (net : Oracle) (msg : RpcRequest) :
    RpcOut :=
  if msg.method = "initialize" then .result msg.id .initInfo
  else if msg.method = "tools/list" then .result msg.id (.toolsList TOOLS)
  else if msg.method = "tools/call" then
    match msg.params with
    | none => .rpcError msg.id (-32603) typeErrorText
    | some p =>
      match (handleTool cfg net p.name (p.arguments.getD [])).2 with
      | .ok text => .result msg.id (.toolContent text false)
      | .error e => .result msg.id (.toolContent e true)
  else .rpcError msg.id (-32601) ("Method not found: " ++ msg.method)

/- handleMessage (lines 433-502): the list of response lines written for
one parsed request (empty for the notifications/initialized early return
and for falsy non-zero ids). -/
def handleMessage (cfg : GerritConfig) (net : Oracle) (msg : RpcRequest) :
    List RpcOut :=
  if msg.method = "notifications/initialized" then []
  else if idFalsy msg.id ∧ msg.id ≠ .num 0 then []
  else [dispatchResponse cfg net msg]

/- ── Agent supervisor (invokeCursorAgent / processStreamEvent) ──────
The promise executor installs four callbacks: stdout data, timeout, spawn
error and exit.  The run is modelled as a state machine consuming the
sequence of callback firings.  processStreamEvent side effects (output
channel, progress) are abstracted to the record of the trimmed non-empty
lines handed to it. -/

/- String.prototype.split(\x27\n\x27): the segments of a character list.
Never empty; the last segment is the trailing text after the last newline. -/
def segs : List Char → List (List Char)
  | [] => [[]]
  | c :: cs =>
    if c = '\n' then [] :: segs cs
    else
      match segs cs with
      | g :: gs => (c :: g) :: gs
      | [] => [[c]]

inductive Completion where
  | resolved : Completion
  | rejected (msg : String) : Completion
deriving DecidableEq, Repr

structure RunState where
  settled : Bool
  killed : Bool
  buffer : List Char
  processed : List (List Char)
  completions : List Completion
deriving DecidableEq, Repr

inductive AgentEvent where
  | dataChunk (s : List Char) : AgentEvent
  | timeoutFires : AgentEvent
  | procError (msg : String) : AgentEvent
  | procExit (code : Option Int) : AgentEvent
deriving DecidableEq, Repr

/- settle (lines 432-442): gated by the settled flag; clearTimeout is
implied by settled = true. -/
def settle (s : RunState) (c : Completion) : RunState :=
  if s.settled then s
  else { s with settled := true, completions := s.completions ++ [c] }

/- The stdout data handler (lines 480-496): append the chunk, split on
newlines, keep the last segment as the new buffer, hand every trimmed
non-empty complete line to processStreamEvent. -/
def feedData (s : RunState) (chunk : List Char) : RunState :=
  let gs := segs (s.buffer ++ chunk)
  { s with
    buffer := gs.getLastD []
    processed := s.processed ++ (gs.dropLast.map jsTrim).filter (· ≠ []) }

def spawnErrorText (m : String) : String :=
  "Cursor CLI failed to start: " ++ m ++
  ". Check that \"cursor\" command is installed and available."

def exitCodeText : Option Int → String
  | some n => toString n
  | none => "null"

/- One callback firing.  The timeout callback (lines 464-475) only runs
while the timer is pending, i.e. while the run is unsettled, and kills the
process before resolving; the exit handler (lines 522-550) first parses a
non-empty trimmed residual buffer as a final event. -/
def step (s : RunState) : AgentEvent → RunState
  | .dataChunk c => feedData s c
  | .timeoutFires =>
    if s.settled then s else settle { s with killed := true } .resolved
  | .procError m => settle s (.rejected (spawnErrorText m))
  | .procExit code =>
    let s1 :=
      if jsTrim s.buffer ≠ [] then
        { s with processed := s.processed ++ [jsTrim s.buffer] }
      else s
    if code = some 0 ∨ code = none then settle s1 .resolved
    else settle s1 (.rejected ("Cursor agent exited with code " ++
      exitCodeText code))

def initialRun : RunState :=
  { settled := false, killed := false, buffer := [], processed := []
    completions := [] }

def run (evs : List AgentEvent) : RunState := evs.foldl step initialRun

/- Events that reach settle. -/
def isSettling : AgentEvent → Bool
  | .dataChunk _ => false
  | _ => true

/- evt.type of a parsed stream event (processStreamEvent dispatch). -/
def eventType (v : Json) : Option (List Char) :=
  match v with
  | .obj ms =>
    match ms.lookup ['t', 'y', 'p', 'e'] with
    | some (.str s) => some s
    | _ => none
  | _ => none

/- ── Specification-side predicates and concrete fixtures ──────────── -/

/- The ids that actually receive a response: any number (zero via the
explicit rescue, every other number by truthiness) and any non-empty
string.  Stated by shape, independently of the truthiness test the code
performs. -/
def idGetsResponse : JsId → Bool
  | .absent => false
  | .null => false
  | .num _ => true
  | .str s => s ≠ ""

/- A deployment configuration with no credentials and no TLS choice (the
environment exposes none). -/
def exampleCfg : GerritConfig :=
  { url := "https://gerrit.example.com", username := "", password := ""
    authCookie := "", authPart := "a/" }

/- A configuration with both Basic credentials and a session cookie. -/
def exampleCfgAuth : GerritConfig :=
  { url := "https://gerrit.example.com/", username := "alice"
    password := "s3cret", authCookie := "tok", authPart := "a/" }

/- A network in which every request fails at the socket. -/
def netDown : Oracle := fun _ => .error "connect ECONNREFUSED"

/- ═══════════════════════════ Theorems ═══════════════════════════ -/

/-- C5: every invocation of gerrit_reply_to_comment issues exactly one PUT
to the drafts collection whose body carries unresolved = false regardless
of the caller's arguments, together with the path, message and in_reply_to
fields taken from the arguments. -/
theorem c5_reply_body_always_resolved (cfg : GerritConfig) (net : Oracle)
    (args : ToolArgs) :
    ∃ req, (handleReplyToComment cfg net args).1 = [req] ∧
      req.method = "PUT" ∧
      (req.body.getD []).lookup "unresolved" = some (JsVal.bool false) ∧
      (req.body.getD []).lookup "path" =
        some (JsVal.str (jsToString (getArg args "filePath"))) ∧
      (req.body.getD []).lookup "message" =
        some (JsVal.str (jsToString (getArg args "message"))) ∧
      (req.body.getD []).lookup "in_reply_to" =
        some (JsVal.str (jsToString (getArg args "inReplyTo"))) :=
  ⟨_, rfl, rfl, rfl, rfl, rfl, rfl⟩

/-- C7 counterexample: with a configuration that makes no TLS choice at all
(none exists), the GET request built by the gateway already carries
rejectUnauthorized = false, so certificates are not validated by default,
contradicting the claim. -/
theorem c7_counterexample_tls_disabled_by_default :
    (gerritGetRequest exampleCfg "changes/1/detail/").rejectUnauthorized
      = false := rfl

/-- C7 amended: relaxed TLS validation is unconditional, not an opt-in:
every request built by gerritGet/gerritGetRaw/gerritPut hard-codes
rejectUnauthorized = false, and the configuration offers no switch to turn
validation on. -/
theorem c7_tls_always_relaxed (cfg : GerritConfig) (path : String)
    (body : List (String × JsVal)) :
    (gerritGetRequest cfg path).rejectUnauthorized = false ∧
    (gerritPutRequest cfg path body).rejectUnauthorized = false :=
  ⟨rfl, rfl⟩

/-- C10: a request built by the gateway carries a Basic Authorization
header exactly when both the username and the password are non-empty, and
a session cookie jar exactly when the cookie value is non-empty. -/
theorem c10_auth_attachment (cfg : GerritConfig) (path : String)
    (body : List (String × JsVal)) :
    (((gerritGetRequest cfg path).headers.lookup "Authorization").isSome ↔
      (cfg.username ≠ "" ∧ cfg.password ≠ "")) ∧
    (((gerritPutRequest cfg path body).headers.lookup "Authorization").isSome
      ↔ (cfg.username ≠ "" ∧ cfg.password ≠ "")) ∧
    ((gerritGetRequest cfg path).cookieJar.isSome ↔ cfg.authCookie ≠ "") ∧
    ((gerritPutRequest cfg path body).cookieJar.isSome ↔ cfg.authCookie ≠ "")
    := by
  refine ⟨?_, ?_, ?_, ?_⟩
  · simp only [gerritGetRequest, gerritHeaders, if_false, List.nil_append]
    split
    · simp
    · simp_all
  · simp only [gerritPutRequest, gerritHeaders, if_true]
    split <;> simp_all [List.lookup]
  · simp only [gerritGetRequest, buildCookieJar]
    split <;> simp_all
  · simp only [gerritPutRequest, buildCookieJar]
    split <;> simp_all

/-- C10 witness: with both credentials and a cookie configured, the GET
request carries the Authorization header. -/
theorem c10_auth_attachment_witness :
    ((gerritGetRequest exampleCfgAuth "changes/1/detail/").headers.lookup
      "Authorization").isSome :=
  (c10_auth_attachment exampleCfgAuth "changes/1/detail/" []).1.mpr
    (by exact ⟨by decide, by decide⟩)

/-- C6: a gerrit_post_draft_comment call with filePath = "/PATCHSET_LEVEL"
and no line argument issues one PUT whose body has no line field and whose
path is the literal sentinel; and in every invocation the body's
unresolved field is true unless the unresolved argument is exactly the
boolean false. -/
theorem c6_post_draft_patchset_level :
    (∀ (cfg : GerritConfig) (net : Oracle) (args : ToolArgs),
      getArg args "filePath" = JsVal.str "/PATCHSET_LEVEL" →
      getArg args "line" = JsVal.undefinedV →
      ∃ req, (handlePostDraft cfg net args).1 = [req] ∧
        (req.body.getD []).lookup "line" = none ∧
        (req.body.getD []).lookup "path" =
          some (JsVal.str "/PATCHSET_LEVEL")) ∧
    (∀ (cfg : GerritConfig) (net : Oracle) (args : ToolArgs),
      ∃ req, (handlePostDraft cfg net args).1 = [req] ∧
        (req.body.getD []).lookup "unresolved" =
          some (JsVal.bool (!jsIsFalse (getArg args "unresolved")))) := by
  constructor
  · intro cfg net args hfp hline
    refine ⟨_, rfl, ?_, ?_⟩
    · simp [gerritPutRequest, postDraftBody, hline, jsIsNumber, List.lookup]
    · simp [gerritPutRequest, postDraftBody, hfp, jsToString, List.lookup]
  · intro cfg net args
    refine ⟨_, rfl, ?_⟩
    simp only [gerritPutRequest, postDraftBody]
    split <;> simp [List.lookup]

/-- C6 witness: a concrete patchset-level draft with no line and no
unresolved argument produces a body with path /PATCHSET_LEVEL, no line
field, and unresolved true. -/
theorem c6_post_draft_patchset_level_witness :
    (∃ req, (handlePostDraft exampleCfg netDown
        [("changeNumber", JsVal.str "42"),
         ("filePath", JsVal.str "/PATCHSET_LEVEL"),
         ("message", JsVal.str "overall looks good")]).1 = [req] ∧
      (req.body.getD []).lookup "line" = none ∧
      (req.body.getD []).lookup "path" =
        some (JsVal.str "/PATCHSET_LEVEL")) ∧
    (∃ req, (handlePostDraft exampleCfg netDown
        [("changeNumber", JsVal.str "42"),
         ("filePath", JsVal.str "/PATCHSET_LEVEL"),
         ("message", JsVal.str "overall looks good")]).1 = [req] ∧
      (req.body.getD []).lookup "unresolved" =
        some (JsVal.bool true)) :=
  ⟨c6_post_draft_patchset_level.1 exampleCfg netDown _ (by decide) (by decide),
   c6_post_draft_patchset_level.2 exampleCfg netDown _⟩

/-- C2 counterexample: gerrit_get_change declares changeNumber as required,
yet a tools/call without it is not rejected: the handler coerces the
missing argument to the string "undefined" and issues the HTTP GET anyway,
and the only failure surfaced is the network's, not an InvalidArguments
validation error. -/
theorem c2_counterexample_no_validation :
    ((TOOLS.find? (fun t => t.name == "gerrit_get_change")).map
      ToolDef.required = some ["changeNumber"]) ∧
    getArg [] "changeNumber" = JsVal.undefinedV ∧
    (handleTool exampleCfg netDown "gerrit_get_change" []).1 =
      [gerritGetRequest exampleCfg
        "changes/undefined/detail/?o=CURRENT_REVISION&o=CURRENT_COMMIT&o=DETAILED_ACCOUNTS"] ∧
    (handleTool exampleCfg netDown "gerrit_get_change" []).2 =
      .error "connect ECONNREFUSED" :=
  ⟨rfl, rfl, rfl, rfl⟩

/-- C2 amended: no argument validation exists: whenever changeNumber is
missing (reads as undefined), gerrit_get_change still issues exactly one
HTTP GET to the Gerrit backend, with the missing argument coerced to the
literal path segment "undefined"; no InvalidArguments error is produced
before the network call. -/
theorem c2_missing_arg_still_calls_network (cfg : GerritConfig)
    (net : Oracle) (args : ToolArgs)
    (h : getArg args "changeNumber" = JsVal.undefinedV) :
    (handleTool cfg net "gerrit_get_change" args).1 =
      [gerritGetRequest cfg
        "changes/undefined/detail/?o=CURRENT_REVISION&o=CURRENT_COMMIT&o=DETAILED_ACCOUNTS"] := by
  simp [handleTool, handleGetChange, gerritGet, h, jsToString]

/-- C2 witness: the amended statement at the empty argument object. -/
theorem c2_missing_arg_still_calls_network_witness :
    (handleTool exampleCfg netDown "gerrit_get_change" []).1 =
      [gerritGetRequest exampleCfg
        "changes/undefined/detail/?o=CURRENT_REVISION&o=CURRENT_COMMIT&o=DETAILED_ACCOUNTS"] :=
  c2_missing_arg_still_calls_network exampleCfg netDown [] rfl

/-- C1 counterexample: a request whose id is present and null receives no
response at all (the truthiness guard treats null ids as notifications),
refuting the claim that a null id receives exactly one response. -/
theorem c1_counterexample_null_id_ignored :
    handleMessage exampleCfg netDown
      { jsonrpc := "2.0", id := JsId.null, method := "tools/list"
        params := none } = [] := rfl

/-- C1 amended: exactly one response line is written iff the method is not
the notifications/initialized early-return and the id is a number
(including 0) or a non-empty string; requests whose id is absent, null or
the empty string are treated as notifications and never answered. -/
theorem c1_response_exactly_for_truthy_ids (cfg : GerritConfig)
    (net : Oracle) (msg : RpcRequest) :
    (handleMessage cfg net msg).length =
      if msg.method ≠ "notifications/initialized" ∧
          idGetsResponse msg.id = true then 1 else 0 := by
  unfold handleMessage
  by_cases hm : msg.method = "notifications/initialized"
  · simp [hm]
  · cases hid : msg.id with
    | absent => simp [hm, hid, idFalsy, idGetsResponse]
    | null => simp [hm, hid, idFalsy, idGetsResponse]
    | num n => simp [hm, hid, idFalsy, idGetsResponse]
    | str s =>
      by_cases hs : s = "" <;>
        simp [hm, hid, hs, idFalsy, idGetsResponse]

/-- C3: whenever a tools/call request with a response-bearing id reaches a
tool handler that throws (bad arguments, unknown tool, REST failure), the
server writes a single successful JSON-RPC result (never a protocol-level
error object) whose payload is the error text marked isError = true. -/
theorem c3_tool_failure_is_payload_error (cfg : GerritConfig) (net : Oracle)
    (id : JsId) (p : ToolCallParams) (e : String)
    (hid : idGetsResponse id = true)
    (hfail : (handleTool cfg net p.name (p.arguments.getD [])).2 =
      .error e) :
    handleMessage cfg net
      { jsonrpc := "2.0", id := id, method := "tools/call"
        params := some p } =
      [RpcOut.result id (RpcResult.toolContent e true)] := by
  have hguard : ¬ (idFalsy id = true ∧ id ≠ JsId.num 0) := by
    cases id <;> simp_all [idFalsy, idGetsResponse]
  simp [handleMessage, dispatchResponse, hguard, hfail]

/- ── Run-machine lemmas ───────────────────────────────────────────── -/

theorem step_settled_pres (s : RunState) (e : AgentEvent)
    (h : s.settled = true) :
    (step s e).settled = true ∧ (step s e).completions = s.completions ∧
      (step s e).killed = s.killed := by
  cases e with
  | dataChunk c => simp [step, feedData, h]
  | timeoutFires => simp [step, h]
  | procError m => simp [step, settle, h]
  | procExit code =>
    by_cases hb : jsTrim s.buffer ≠ [] <;>
      by_cases hcode : (code = some 0 ∨ code = none) <;>
        simp [step, settle, h, hb, hcode]

theorem foldl_settled_pres (evs : List AgentEvent) (s : RunState)
    (h : s.settled = true) :
    (evs.foldl step s).settled = true ∧
      (evs.foldl step s).completions = s.completions ∧
      (evs.foldl step s).killed = s.killed := by
  induction evs generalizing s with
  | nil => exact ⟨h, rfl, rfl⟩
  | cons e evs ih =>
    obtain ⟨h1, h2, h3⟩ := step_settled_pres s e h
    obtain ⟨g1, g2, g3⟩ := ih (step s e) h1
    exact ⟨g1, g2.trans h2, g3.trans h3⟩

theorem step_nonsettling (s : RunState) (e : AgentEvent)
    (h : isSettling e = false) :
    (step s e).settled = s.settled ∧ (step s e).completions = s.completions ∧
      (step s e).killed = s.killed := by
  cases e <;> simp_all [isSettling, step, feedData]

theorem foldl_nonsettling (evs : List AgentEvent) (s : RunState)
    (h : ∀ e ∈ evs, isSettling e = false) :
    (evs.foldl step s).settled = s.settled ∧
      (evs.foldl step s).completions = s.completions ∧
      (evs.foldl step s).killed = s.killed := by
  induction evs generalizing s with
  | nil => exact ⟨rfl, rfl, rfl⟩
  | cons e evs ih =>
    obtain ⟨h1, h2, h3⟩ := step_nonsettling s e (h e (by simp))
    obtain ⟨g1, g2, g3⟩ := ih (step s e) (fun x hx => h x (by simp [hx]))
    exact ⟨g1.trans h1, g2.trans h2, g3.trans h3⟩

theorem step_settled_any (s : RunState) (e : AgentEvent) :
    (step s e).settled = (s.settled || isSettling e) := by
  cases e with
  | dataChunk c => simp [step, feedData, isSettling]
  | timeoutFires =>
    by_cases h : s.settled = true <;> simp [step, settle, h, isSettling]
  | procError m =>
    by_cases h : s.settled = true <;> simp [step, settle, h, isSettling]
  | procExit code =>
    by_cases h : s.settled = true <;>
      by_cases hb : jsTrim s.buffer ≠ [] <;>
        by_cases hcode : (code = some 0 ∨ code = none) <;>
          simp [step, settle, h, hb, hcode, isSettling]

theorem foldl_settled_any (evs : List AgentEvent) (s : RunState) :
    (evs.foldl step s).settled = (s.settled || evs.any isSettling) := by
  induction evs generalizing s with
  | nil => simp
  | cons e evs ih =>
    simp only [List.foldl_cons, List.any_cons]
    rw [ih, step_settled_any, Bool.or_assoc]

theorem step_inv (s : RunState) (e : AgentEvent)
    (h1 : s.completions.length ≤ 1)
    (h2 : s.settled = true ↔ s.completions ≠ []) :
    (step s e).completions.length ≤ 1 ∧
      ((step s e).settled = true ↔ (step s e).completions ≠ []) := by
  by_cases hs : s.settled = true
  · obtain ⟨g1, g2, _⟩ := step_settled_pres s e hs
    rw [g1, g2]
    exact ⟨h1, by simp [h2.mp hs]⟩
  · have hc : s.completions = [] := by
      by_contra hc
      exact hs (h2.mpr hc)
    cases e with
    | dataChunk c => simp [step, feedData, hs, hc, h2]
    | timeoutFires => simp [step, settle, hs, hc]
    | procError m => simp [step, settle, hs, hc]
    | procExit code =>
      by_cases hb : jsTrim s.buffer ≠ [] <;>
        by_cases hcode : (code = some 0 ∨ code = none) <;>
          simp [step, settle, hs, hc, hb, hcode]

theorem run_inv (evs : List AgentEvent) :
    (run evs).completions.length ≤ 1 ∧
      ((run evs).settled = true ↔ (run evs).completions ≠ []) := by
  suffices h : ∀ s, s.completions.length ≤ 1 →
      (s.settled = true ↔ s.completions ≠ []) →
      (evs.foldl step s).completions.length ≤ 1 ∧
        ((evs.foldl step s).settled = true ↔
          (evs.foldl step s).completions ≠ []) by
    exact h initialRun (by simp [initialRun]) (by simp [initialRun])
  induction evs with
  | nil => exact fun s h1 h2 => ⟨h1, h2⟩
  | cons e evs ih =>
    intro s h1 h2
    obtain ⟨g1, g2⟩ := step_inv s e h1 h2
    exact ih (step s e) g1 g2

/-- C4: completion of an agent run is single-shot: over any sequence of
callback firings at most one completion value is recorded, a completion
exists exactly when some settling callback (timeout, spawn error or exit)
fired, and if the timeout is the first settling callback — the run not yet
settled — the run resolves (it does not reject) and the process has been
killed. -/
theorem c4_single_shot_settlement :
    (∀ evs, (run evs).completions.length ≤ 1) ∧
    (∀ evs, (run evs).completions ≠ [] ↔
      ∃ e ∈ evs, isSettling e = true) ∧
    (∀ pre post, (∀ e ∈ pre, isSettling e = false) →
      (run (pre ++ AgentEvent.timeoutFires :: post)).completions =
        [Completion.resolved] ∧
      (run (pre ++ AgentEvent.timeoutFires :: post)).killed = true) := by
  refine ⟨fun evs => (run_inv evs).1, fun evs => ?_, fun pre post hpre => ?_⟩
  · rw [← (run_inv evs).2]
    have : (run evs).settled = (false || evs.any isSettling) :=
      foldl_settled_any evs initialRun
    rw [this]
    simp [List.any_eq_true]
  · have hsplit : run (pre ++ AgentEvent.timeoutFires :: post) =
        (AgentEvent.timeoutFires :: post).foldl step (pre.foldl step initialRun) := by
      simp [run, List.foldl_append]
    obtain ⟨p1, p2, p3⟩ := foldl_nonsettling pre initialRun hpre
    have hs0 : (pre.foldl step initialRun).settled = false := by
      rw [p1]; rfl
    have hc0 : (pre.foldl step initialRun).completions = [] := by
      rw [p2]; rfl
    have t1 : (step (pre.foldl step initialRun)
        AgentEvent.timeoutFires).settled = true := by
      simp [step, settle, hs0]
    have t2 : (step (pre.foldl step initialRun)
        AgentEvent.timeoutFires).completions = [Completion.resolved] := by
      simp [step, settle, hs0, hc0]
    have t3 : (step (pre.foldl step initialRun)
        AgentEvent.timeoutFires).killed = true := by
      simp [step, settle, hs0]
    rw [hsplit]
    simp only [List.foldl_cons]
    obtain ⟨q1, q2, q3⟩ := foldl_settled_pres post _ t1
    rw [q2, q3]
    exact ⟨t2, t3⟩

/-- C4 witness: after a data chunk, a timeout firing and a late non-zero
exit, the run records exactly the single resolved completion and the
process was killed. -/
theorem c4_single_shot_settlement_witness :
    (run [AgentEvent.dataChunk " ".toList, AgentEvent.timeoutFires,
      AgentEvent.procExit (some 1)]).completions = [Completion.resolved] ∧
    (run [AgentEvent.dataChunk " ".toList, AgentEvent.timeoutFires,
      AgentEvent.procExit (some 1)]).killed = true :=
  c4_single_shot_settlement.2.2 [AgentEvent.dataChunk " ".toList]
    [AgentEvent.procExit (some 1)] (by simp [isSettling])

/- ── Line-splitting lemmas for the stdout decoder ─────────────────── -/

theorem getLastD_irrel {α : Type} (ys : List α) (h : ys ≠ []) (d d' : α) :
    ys.getLastD d = ys.getLastD d' := by
  cases ys with
  | nil => exact absurd rfl h
  | cons a l => rw [List.getLastD_cons, List.getLastD_cons]

theorem getLastD_append {α : Type} (xs ys : List α) (h : ys ≠ []) :
    ∀ d, (xs ++ ys).getLastD d = ys.getLastD d := by
  induction xs with
  | nil => intro d; rfl
  | cons x xs ih =>
    intro d
    rw [List.cons_append, List.getLastD_cons, ih x,
      getLastD_irrel ys h x d]

theorem getLastD_mem {α : Type} (S : List α) (h : S ≠ []) (d : α) :
    S.getLastD d ∈ S := by
  induction S generalizing d with
  | nil => exact absurd rfl h
  | cons a l ih =>
    rw [List.getLastD_cons]
    cases l with
    | nil => simp [List.getLastD]
    | cons b m => exact List.mem_cons_of_mem a (ih (by simp) a)

theorem segs_ne_nil (s : List Char) : segs s ≠ [] := by
  cases s with
  | nil => simp [segs]
  | cons c cs =>
    simp only [segs]
    split
    · simp
    · split <;> simp

theorem segs_append (a b : List Char) :
    segs (a ++ b) = (segs a).dropLast ++
      ((segs a).getLastD [] ++ (segs b).headD []) :: (segs b).tail := by
  induction a with
  | nil =>
    cases hb : segs b with
    | nil => exact absurd hb (segs_ne_nil b)
    | cons h t => simp [segs, hb, List.getLastD_cons]
  | cons c a ih =>
    by_cases hc : c = '\n'
    · subst hc
      have hunfold : ∀ x : List Char, segs ('\n' :: x) = [] :: segs x :=
        fun x => by simp [segs]
      rw [List.cons_append, hunfold, hunfold, ih]
      cases ha : segs a with
      | nil => exact absurd ha (segs_ne_nil a)
      | cons g gs =>
        simp [List.getLastD_cons, List.dropLast_cons₂]
    · have hunfold : ∀ x : List Char, segs (c :: x) =
          (match segs x with
            | g :: gs => (c :: g) :: gs
            | [] => [[c]]) := fun x => by simp [segs, hc]
      rw [List.cons_append, hunfold, hunfold, ih]
      cases ha : segs a with
      | nil => exact absurd ha (segs_ne_nil a)
      | cons g gs =>
        cases gs with
        | nil =>
          simp only [List.dropLast_single, List.nil_append,
            List.getLastD_cons, List.getLastD_nil]
          rfl
        | cons g2 gs' =>
          simp only [List.dropLast_cons₂, List.cons_append,
            List.getLastD_cons]

theorem segs_no_nl (s : List Char) : ∀ l ∈ segs s, '\n' ∉ l := by
  induction s with
  | nil => simp [segs]
  | cons c cs ih =>
    by_cases hc : c = '\n'
    · subst hc
      rw [show segs ('\n' :: cs) = [] :: segs cs from by simp [segs]]
      simp only [List.mem_cons]
      rintro l (rfl | hl)
      · simp
      · exact ih l hl
    · rw [show segs (c :: cs) = (match segs cs with
        | g :: gs => (c :: g) :: gs
        | [] => [[c]]) from by simp [segs, hc]]
      cases hs : segs cs with
      | nil => exact absurd hs (segs_ne_nil cs)
      | cons g gs =>
        simp only [List.mem_cons]
        rintro l (rfl | hl)
        · simp only [List.mem_cons, not_or]
          exact ⟨fun h => hc h.symm,
            ih g (by rw [hs]; exact List.mem_cons_self g gs)⟩
        · exact ih l (by rw [hs]; exact List.mem_cons_of_mem g hl)

theorem segs_of_no_nl (l : List Char) (h : '\n' ∉ l) : segs l = [l] := by
  induction l with
  | nil => rfl
  | cons c cs ih =>
    have hc : ¬ c = '\n' := fun hcc => h (by simp [hcc])
    have hcs := ih (fun hm => h (List.mem_cons_of_mem c hm))
    simp [segs, hc, hcs]

theorem feedData_buffer_no_nl (s : RunState) (a : List Char) :
    '\n' ∉ (feedData s a).buffer :=
  segs_no_nl (s.buffer ++ a) _
    (getLastD_mem _ (segs_ne_nil (s.buffer ++ a)) [])

theorem feedData_comp (s : RunState) (a b : List Char) :
    feedData (feedData s a) b = feedData s (a ++ b) := by
  have hb1 : segs ((segs (s.buffer ++ a)).getLastD []) =
      [(segs (s.buffer ++ a)).getLastD []] :=
    segs_of_no_nl _ (segs_no_nl (s.buffer ++ a) _
      (getLastD_mem _ (segs_ne_nil (s.buffer ++ a)) []))
  have hmid : ((segs (s.buffer ++ a)).getLastD [] ++
      (segs b).headD []) :: (segs b).tail ≠ [] := by simp
  cases s with
  | mk st k buf pr comps =>
    simp only [feedData] at hb1 ⊢
    have h2 : segs ((segs (buf ++ a)).getLastD [] ++ b) =
        ((segs (buf ++ a)).getLastD [] ++ (segs b).headD []) ::
          (segs b).tail := by
      rw [segs_append, hb1]
      rfl
    have h3 : segs (buf ++ (a ++ b)) =
        (segs (buf ++ a)).dropLast ++
          ((segs (buf ++ a)).getLastD [] ++ (segs b).headD []) ::
            (segs b).tail := by
      rw [← List.append_assoc, segs_append]
    simp only [RunState.mk.injEq, h2, h3, true_and, and_true]
    refine ⟨?_, ?_⟩
    · rw [getLastD_append _ _ hmid]
    · rw [List.dropLast_append_of_ne_nil _ hmid, List.map_append,
        List.filter_append, List.append_assoc]

theorem foldl_dataChunks (s : RunState) (h : '\n' ∉ s.buffer) :
    ∀ chunks : List (List Char),
      (chunks.map AgentEvent.dataChunk).foldl step s = feedData s chunks.flatten
  | [] => by
    cases s with
    | mk st k buf pr comps =>
      simp only [List.map_nil, List.foldl_nil, List.flatten_nil, feedData,
        List.append_nil]
      rw [segs_of_no_nl buf h]
      simp
  | c :: chunks => by
    have hstep : step s (AgentEvent.dataChunk c) = feedData s c := rfl
    simp only [List.map_cons, List.foldl_cons, hstep, List.flatten_cons]
    rw [foldl_dataChunks (feedData s c) (feedData_buffer_no_nl s c) chunks,
      feedData_comp]

/-- C9: the incremental stdout decoder is invariant under re-chunking: any
splitting of the byte stream into data chunks yields exactly the state of
delivering the concatenation in one chunk; the spec's two-chunk example
yields exactly one processed line parsing to a single assistant-typed
StreamEvent; and a non-empty trimmed residual buffer is parsed as a final
event by the exit handler. -/
theorem c9_rechunking_invariant :
    (∀ chunks : List (List Char),
      run (chunks.map AgentEvent.dataChunk) =
        run [AgentEvent.dataChunk chunks.flatten]) ∧
    ((run [AgentEvent.dataChunk "\x7b\"type\":\"assistant\"".toList,
        AgentEvent.dataChunk
          ",\"message\":\x7b\"role\":\"assistant\"\x7d\x7d\n".toList]).processed
      = ["\x7b\"type\":\"assistant\",\"message\":\x7b\"role\":\"assistant\"\x7d\x7d".toList]
      ∧
      (parseJson
        "\x7b\"type\":\"assistant\",\"message\":\x7b\"role\":\"assistant\"\x7d\x7d".toList).bind
          eventType = some "assistant".toList) ∧
    (∀ (s : RunState) (code : Option Int), jsTrim s.buffer ≠ [] →
      (step s (AgentEvent.procExit code)).processed =
        s.processed ++ [jsTrim s.buffer]) := by
  refine ⟨fun chunks => ?_, ⟨?_, ?_⟩, fun s code h => ?_⟩
  · show (chunks.map AgentEvent.dataChunk).foldl step initialRun = _
    rw [foldl_dataChunks initialRun (by simp [initialRun]) chunks]
    rfl
  · rfl
  · rfl
  · by_cases hcode : (code = some 0 ∨ code = none) <;>
      by_cases hset : s.settled = true <;>
        simp [step, settle, h, hcode, hset]

/-- C9 witness: the exit handler flushes a concrete one-character residual
buffer as a final processed line. -/
theorem c9_rechunking_invariant_witness :
    (step { settled := false, killed := false, buffer := ['x'],
            processed := [], completions := [] }
      (AgentEvent.procExit (some 0))).processed = [] ++ [jsTrim ['x']] :=
  c9_rechunking_invariant.2.2
    { settled := false, killed := false, buffer := ['x'], processed := [],
        completions := [] } (some 0) (by decide)

/-- C3 witness: calling an unregistered tool with id 1 yields the single
successful response carrying the thrown message and isError = true. -/
theorem c3_tool_failure_is_payload_error_witness :
    handleMessage exampleCfg netDown
      { jsonrpc := "2.0", id := JsId.num 1, method := "tools/call"
        params := some { name := "no_such_tool", arguments := none } } =
      [RpcOut.result (JsId.num 1)
        (RpcResult.toolContent "Unknown tool: no_such_tool" true)] :=
  c3_tool_failure_is_payload_error exampleCfg netDown (JsId.num 1)
    { name := "no_such_tool", arguments := none } "Unknown tool: no_such_tool"
    rfl rfl

/- ── Lexer lemmas for the magic-strip/trim round trip ─────────────── -/

theorem jsonWs_sub (c : Char) (h : isJsonWs c = true) : isJsWs c = true := by
  simp [isJsWs, h]

theorem not_jsWs_not_jsonWs (c : Char) (h : isJsWs c = false) :
    isJsonWs c = false := by
  cases hj : isJsonWs c with
  | false => rfl
  | true => rw [jsonWs_sub c hj] at h; exact h.symm ▸ rfl

theorem digit_not_ws (c : Char) (h : isDigitC c = true) : isJsWs c = false := by
  simp only [isDigitC, Bool.and_eq_true, decide_eq_true_eq] at h
  simp only [isJsWs, isJsonWs]
  simp only [Bool.or_eq_false_iff, decide_eq_false_iff_not,
    Bool.and_eq_false_iff, decide_eq_false_iff_not, not_le]
  omega

theorem alpha_not_ws (c : Char) (h : isAlphaC c = true) : isJsWs c = false := by
  simp only [isAlphaC, Bool.or_eq_true, Bool.and_eq_true,
    decide_eq_true_eq] at h
  simp only [isJsWs, isJsonWs]
  simp only [Bool.or_eq_false_iff, decide_eq_false_iff_not,
    Bool.and_eq_false_iff, decide_eq_false_iff_not, not_le]
  omega

theorem numC_not_ws (c : Char) (h : isNumC c = true) : isJsWs c = false := by
  simp only [isNumC, Bool.or_eq_true, decide_eq_true_eq] at h
  rcases h with ((((h | rfl) | rfl) | rfl) | rfl) | rfl
  · exact digit_not_ws c h
  all_goals decide

theorem dropWhile_head_false {α : Type} (p : α → Bool) :
    ∀ (l : List α) (c : α) (r : List α), l.dropWhile p = c :: r →
      p c = false := by
  intro l
  induction l with
  | nil => intro c r h; exact absurd h (by simp)
  | cons a l ih =>
    intro c r h
    cases pa : p a with
    | true => exact ih c r (by simpa [List.dropWhile_cons, pa] using h)
    | false =>
      have : a = c := by
        simp only [List.dropWhile_cons, pa, Bool.false_eq_true, if_false,
          List.cons.injEq] at h
        exact h.1
      subst this
      exact pa

theorem takeWhile_all_stop {α : Type} (p : α → Bool) (m r : List α)
    (hm : ∀ x ∈ m, p x = true)
    (hr : ∀ c rs, r = c :: rs → p c = false) :
    (m ++ r).takeWhile p = m ∧ (m ++ r).dropWhile p = r := by
  induction m with
  | nil =>
    cases r with
    | nil => exact ⟨rfl, rfl⟩
    | cons c rs =>
      have := hr c rs rfl
      simp [List.takeWhile_cons, List.dropWhile_cons, this]
  | cons x m ih =>
    have hx := hm x (by simp)
    obtain ⟨ih1, ih2⟩ := ih (fun y hy => hm y (by simp [hy]))
    simp [List.takeWhile_cons, List.dropWhile_cons, hx, ih1, ih2]

theorem scan_spec :
    ∀ (cs raw rest : List Char), scanStr cs = some (raw, rest) →
      cs = raw ++ '"' :: rest := by
  intro cs
  induction cs using scanStr.induct with
  | case1 =>
    intro raw rest h
    simp [scanStr] at h
  | case2 rest2 =>
    intro raw rest h
    unfold scanStr at h
    rw [if_pos rfl] at h
    simp only [Option.some.injEq, Prod.mk.injEq] at h
    rw [← h.1, ← h.2]
    rfl
  | case3 hq =>
    intro raw rest h
    unfold scanStr at h
    rw [if_neg hq, if_pos rfl] at h
    simp at h
  | case4 c2 rest2 raw0 rest0 hscan hq ih =>
    intro raw rest h
    unfold scanStr at h
    rw [if_neg hq, if_pos rfl] at h
    simp only [hscan, Option.some.injEq, Prod.mk.injEq] at h
    rw [← h.1, ← h.2, ih raw0 rest0 hscan]
    rfl
  | case5 c2 rest2 hscan hq ih =>
    intro raw rest h
    unfold scanStr at h
    rw [if_neg hq, if_pos rfl] at h
    simp [hscan] at h
  | case6 c2 rest2 hq hb hc =>
    intro raw rest h
    unfold scanStr at h
    rw [if_neg hq, if_neg hb, if_pos hc] at h
    simp at h
  | case7 c2 rest2 hq hb hc raw0 rest0 hscan ih =>
    intro raw rest h
    unfold scanStr at h
    rw [if_neg hq, if_neg hb, if_neg hc] at h
    simp only [hscan, Option.some.injEq, Prod.mk.injEq] at h
    rw [← h.1, ← h.2, ih raw0 rest0 hscan]
    rfl
  | case8 c2 rest2 hq hb hc hscan ih =>
    intro raw rest h
    unfold scanStr at h
    rw [if_neg hq, if_neg hb, if_neg hc] at h
    simp [hscan] at h

/- Re-scanning the consumed text of a successful scan in front of any
continuation consumes exactly the same text (the scanner never looks past
the closing quote). -/
theorem scan_pdet :
    ∀ (cs raw rest : List Char), scanStr cs = some (raw, rest) →
      ∀ Z, scanStr (raw ++ '"' :: Z) = some (raw, Z) := by
  intro cs
  induction cs using scanStr.induct with
  | case1 =>
    intro raw rest h
    simp [scanStr] at h
  | case2 rest2 =>
    intro raw rest h Z
    unfold scanStr at h
    rw [if_pos rfl] at h
    simp only [Option.some.injEq, Prod.mk.injEq] at h
    rw [← h.1]
    show scanStr ('"' :: Z) = some ([], Z)
    unfold scanStr
    rw [if_pos rfl]
  | case3 hq =>
    intro raw rest h
    unfold scanStr at h
    rw [if_neg hq, if_pos rfl] at h
    simp at h
  | case4 c2 rest2 raw0 rest0 hscan hq ih =>
    intro raw rest h Z
    unfold scanStr at h
    rw [if_neg hq, if_pos rfl] at h
    simp only [hscan, Option.some.injEq, Prod.mk.injEq] at h
    rw [← h.1]
    show scanStr ('\\' :: c2 :: (raw0 ++ '"' :: Z)) =
      some ('\\' :: c2 :: raw0, Z)
    unfold scanStr
    rw [if_neg hq, if_pos rfl]
    simp only [ih raw0 rest0 hscan Z]
  | case5 c2 rest2 hscan hq ih =>
    intro raw rest h
    unfold scanStr at h
    rw [if_neg hq, if_pos rfl] at h
    simp [hscan] at h
  | case6 c2 rest2 hq hb hc =>
    intro raw rest h
    unfold scanStr at h
    rw [if_neg hq, if_neg hb, if_pos hc] at h
    simp at h
  | case7 c2 rest2 hq hb hc raw0 rest0 hscan ih =>
    intro raw rest h Z
    unfold scanStr at h
    rw [if_neg hq, if_neg hb, if_neg hc] at h
    simp only [hscan, Option.some.injEq, Prod.mk.injEq] at h
    rw [← h.1]
    show scanStr (c2 :: (raw0 ++ '"' :: Z)) = some (c2 :: raw0, Z)
    unfold scanStr
    rw [if_neg hq, if_neg hb, if_neg hc]
    simp only [ih raw0 rest0 hscan Z]
  | case8 c2 rest2 hq hb hc hscan ih =>
    intro raw rest h
    unfold scanStr at h
    rw [if_neg hq, if_neg hb, if_neg hc] at h
    simp [hscan] at h

theorem getLastD_cons_prop (P : Char → Prop) (c : Char) (l : List Char)
    (hc : P c) (hl : ∀ x ∈ l, P x) : P ((c :: l).getLastD ' ') := by
  cases l with
  | nil => simpa [List.getLastD] using hc
  | cons m ms =>
    rw [List.getLastD_cons]
    exact hl _ (getLastD_mem (m :: ms) (by simp) c)

/- The characters a successful lexTok consumed: one non-whitespace token
whose first and last characters are not even JavaScript whitespace. -/
theorem lexTok_spec (c : Char) (cs : List Char) (t : Tok) (rest : List Char)
    (h : lexTok (c :: cs) = some (t, rest)) :
    ∃ mid, cs = mid ++ rest ∧ isJsWs c = false ∧
      isJsWs ((c :: mid).getLastD ' ') = false := by
  simp only [lexTok] at h
  by_cases h1 : c = '\x7b'
  · rw [if_pos h1] at h
    simp only [Option.some.injEq, Prod.mk.injEq] at h
    exact ⟨[], by simp [h.2], by subst h1; decide, by subst h1; decide⟩
  rw [if_neg h1] at h
  by_cases h2 : c = '\x7d'
  · rw [if_pos h2] at h
    simp only [Option.some.injEq, Prod.mk.injEq] at h
    exact ⟨[], by simp [h.2], by subst h2; decide, by subst h2; decide⟩
  rw [if_neg h2] at h
  by_cases h3 : c = '['
  · rw [if_pos h3] at h
    simp only [Option.some.injEq, Prod.mk.injEq] at h
    exact ⟨[], by simp [h.2], by subst h3; decide, by subst h3; decide⟩
  rw [if_neg h3] at h
  by_cases h4 : c = ']'
  · rw [if_pos h4] at h
    simp only [Option.some.injEq, Prod.mk.injEq] at h
    exact ⟨[], by simp [h.2], by subst h4; decide, by subst h4; decide⟩
  rw [if_neg h4] at h
  by_cases h5 : c = ','
  · rw [if_pos h5] at h
    simp only [Option.some.injEq, Prod.mk.injEq] at h
    exact ⟨[], by simp [h.2], by subst h5; decide, by subst h5; decide⟩
  rw [if_neg h5] at h
  by_cases h6 : c = ':'
  · rw [if_pos h6] at h
    simp only [Option.some.injEq, Prod.mk.injEq] at h
    exact ⟨[], by simp [h.2], by subst h6; decide, by subst h6; decide⟩
  rw [if_neg h6] at h
  by_cases h7 : c = '"'
  · rw [if_pos h7] at h
    cases hscan : scanStr cs with
    | none => simp [hscan] at h
    | some pr =>
      obtain ⟨raw0, rest0⟩ := pr
      cases hdec : decodeStr raw0 with
      | none => simp [hscan, hdec] at h
      | some s0 =>
        simp only [hscan, hdec, Option.some.injEq, Prod.mk.injEq] at h
        refine ⟨raw0 ++ ['"'], ?_, by subst h7; decide, ?_⟩
        · rw [← h.2, scan_spec cs raw0 rest0 hscan]
          simp
        · show isJsWs (((c :: raw0) ++ ['"']).getLastD ' ') = false
          rw [getLastD_append (c :: raw0) ['"'] (by simp) ' ']
          decide
  rw [if_neg h7] at h
  by_cases h8 : (c = '-' || isDigitC c) = true
  · rw [if_pos h8] at h
    simp only [Option.some.injEq, Prod.mk.injEq] at h
    have hcws : isJsWs c = false := by
      simp only [Bool.or_eq_true, decide_eq_true_eq] at h8
      rcases h8 with rfl | hd
      · decide
      · exact digit_not_ws c hd
    refine ⟨cs.takeWhile isNumC, ?_, hcws, ?_⟩
    · rw [← h.2]
      exact (List.takeWhile_append_dropWhile _ _).symm
    · exact getLastD_cons_prop (fun x => isJsWs x = false) c _ hcws
        (fun x hx => numC_not_ws x (List.mem_takeWhile_imp hx))
  rw [if_neg h8] at h
  by_cases h9 : isAlphaC c = true
  · rw [if_pos h9] at h
    simp only [Option.some.injEq, Prod.mk.injEq] at h
    refine ⟨cs.takeWhile isAlphaC, ?_, alpha_not_ws c h9, ?_⟩
    · rw [← h.2]
      exact (List.takeWhile_append_dropWhile _ _).symm
    · exact getLastD_cons_prop (fun x => isJsWs x = false) c _
        (alpha_not_ws c h9)
        (fun x hx => alpha_not_ws x (List.mem_takeWhile_imp hx))
  rw [if_neg h9] at h
  simp at h

theorem lexTok_shorter (c : Char) (cs : List Char) (t : Tok)
    (rest : List Char) (h : lexTok (c :: cs) = some (t, rest)) :
    rest.length ≤ cs.length := by
  obtain ⟨mid, hmid, -, -⟩ := lexTok_spec c cs t rest h
  rw [hmid]
  simp

/- Re-lexing the consumed text of a successful lexTok in front of any
prefix of the old remainder produces the same token (maximal munch only
inspects the first unconsumed character, which the prefix shares). -/
theorem lexTok_pdet (c : Char) (mid rest : List Char) (t : Tok)
    (h : lexTok (c :: (mid ++ rest)) = some (t, rest)) :
    ∀ rest' zs, rest = rest' ++ zs →
      lexTok (c :: (mid ++ rest')) = some (t, rest') := by
  intro rest' zs hsplit
  simp only [lexTok] at h ⊢
  by_cases h1 : c = '\x7b'
  · rw [if_pos h1] at h ⊢
    simp only [Option.some.injEq, Prod.mk.injEq] at h
    have hmid : mid = [] := List.self_eq_append_left.mp h.2.symm
    subst hmid
    simp [← h.1]
  rw [if_neg h1] at h ⊢
  by_cases h2 : c = '\x7d'
  · rw [if_pos h2] at h ⊢
    simp only [Option.some.injEq, Prod.mk.injEq] at h
    have hmid : mid = [] := List.self_eq_append_left.mp h.2.symm
    subst hmid
    simp [← h.1]
  rw [if_neg h2] at h ⊢
  by_cases h3 : c = '['
  · rw [if_pos h3] at h ⊢
    simp only [Option.some.injEq, Prod.mk.injEq] at h
    have hmid : mid = [] := List.self_eq_append_left.mp h.2.symm
    subst hmid
    simp [← h.1]
  rw [if_neg h3] at h ⊢
  by_cases h4 : c = ']'
  · rw [if_pos h4] at h ⊢
    simp only [Option.some.injEq, Prod.mk.injEq] at h
    have hmid : mid = [] := List.self_eq_append_left.mp h.2.symm
    subst hmid
    simp [← h.1]
  rw [if_neg h4] at h ⊢
  by_cases h5 : c = ','
  · rw [if_pos h5] at h ⊢
    simp only [Option.some.injEq, Prod.mk.injEq] at h
    have hmid : mid = [] := List.self_eq_append_left.mp h.2.symm
    subst hmid
    simp [← h.1]
  rw [if_neg h5] at h ⊢
  by_cases h6 : c = ':'
  · rw [if_pos h6] at h ⊢
    simp only [Option.some.injEq, Prod.mk.injEq] at h
    have hmid : mid = [] := List.self_eq_append_left.mp h.2.symm
    subst hmid
    simp [← h.1]
  rw [if_neg h6] at h ⊢
  by_cases h7 : c = '"'
  · rw [if_pos h7] at h ⊢
    cases hscan : scanStr (mid ++ rest) with
    | none => simp [hscan] at h
    | some pr =>
      obtain ⟨raw0, rest0⟩ := pr
      cases hdec : decodeStr raw0 with
      | none => simp [hscan, hdec] at h
      | some s0 =>
        simp only [hscan, hdec, Option.some.injEq, Prod.mk.injEq] at h
        obtain ⟨ht, hrest0⟩ := h
        have hmid : mid = raw0 ++ ['"'] := by
          have hs := scan_spec (mid ++ rest) raw0 rest0 hscan
          have heq : mid ++ rest = (raw0 ++ ['"']) ++ rest := by
            rw [hs, hrest0]
            simp
          exact List.append_cancel_right heq
        have hscan' : scanStr (mid ++ rest') = some (raw0, rest') := by
          rw [hmid, List.append_assoc]
          exact scan_pdet _ raw0 rest0 hscan rest'
        simp [hscan', hdec, ← ht]
  rw [if_neg h7] at h ⊢
  by_cases h8 : (c = '-' || isDigitC c) = true
  · rw [if_pos h8] at h ⊢
    simp only [Option.some.injEq, Prod.mk.injEq] at h
    obtain ⟨ht, hdrop⟩ := h
    have hsplit2 : mid ++ rest =
        (mid ++ rest).takeWhile isNumC ++ rest := by
      conv_lhs => rw [← List.takeWhile_append_dropWhile (p := isNumC)
        (l := mid ++ rest)]
      rw [hdrop]
    have hmid : mid = (mid ++ rest).takeWhile isNumC :=
      List.append_cancel_right hsplit2
    have hm : ∀ x ∈ mid, isNumC x = true := fun x hx =>
      List.mem_takeWhile_imp (hmid ▸ hx)
    have hr' : ∀ c0 rs, rest' = c0 :: rs → isNumC c0 = false := by
      intro c0 rs hr
      exact dropWhile_head_false isNumC (mid ++ rest) c0 (rs ++ zs)
        (by rw [hdrop, hsplit, hr]; rfl)
    obtain ⟨htw, hdw⟩ := takeWhile_all_stop isNumC mid rest' hm hr'
    rw [htw, hdw, ← ht, ← hmid]
  rw [if_neg h8] at h ⊢
  by_cases h9 : isAlphaC c = true
  · rw [if_pos h9] at h ⊢
    simp only [Option.some.injEq, Prod.mk.injEq] at h
    obtain ⟨ht, hdrop⟩ := h
    have hsplit2 : mid ++ rest =
        (mid ++ rest).takeWhile isAlphaC ++ rest := by
      conv_lhs => rw [← List.takeWhile_append_dropWhile (p := isAlphaC)
        (l := mid ++ rest)]
      rw [hdrop]
    have hmid : mid = (mid ++ rest).takeWhile isAlphaC :=
      List.append_cancel_right hsplit2
    have hm : ∀ x ∈ mid, isAlphaC x = true := fun x hx =>
      List.mem_takeWhile_imp (hmid ▸ hx)
    have hr' : ∀ c0 rs, rest' = c0 :: rs → isAlphaC c0 = false := by
      intro c0 rs hr
      exact dropWhile_head_false isAlphaC (mid ++ rest) c0 (rs ++ zs)
        (by rw [hdrop, hsplit, hr]; rfl)
    obtain ⟨htw, hdw⟩ := takeWhile_all_stop isAlphaC mid rest' hm hr'
    rw [htw, hdw, ← ht, ← hmid]
  rw [if_neg h9] at h
  simp at h

theorem lexLoop_mono : ∀ (n m : Nat) (s : List Char), s.length ≤ n →
    s.length ≤ m → lexLoop n s = lexLoop m s := by
  intro n
  induction n with
  | zero =>
    intro m s hn _
    have hnil : s = [] := List.eq_nil_of_length_eq_zero (Nat.le_zero.mp hn)
    subst hnil
    simp [lexLoop]
  | succ n ih =>
    intro m s hn hm
    cases s with
    | nil => simp [lexLoop]
    | cons c cs =>
      have hcs : cs.length ≤ n := by
        simp only [List.length_cons] at hn
        omega
      cases m with
      | zero => simp at hm
      | succ m' =>
        have hcs' : cs.length ≤ m' := by
          simp only [List.length_cons] at hm
          omega
        simp only [lexLoop]
        by_cases hws : isJsonWs c = true
        · rw [if_pos hws, if_pos hws]
          exact ih m' cs hcs hcs'
        · rw [if_neg hws, if_neg hws]
          cases hlex : lexTok (c :: cs) with
          | none => rfl
          | some pr =>
            obtain ⟨t, rest⟩ := pr
            have hr := lexTok_shorter c cs t rest hlex
            show (match lexLoop n rest with
              | some ts => some (t :: ts)
              | none => none) =
              (match lexLoop m' rest with
                | some ts => some (t :: ts)
                | none => none)
            rw [ih m' rest (le_trans hr hcs) (le_trans hr hcs')]

theorem lexSkipLeadingWs (w s : List Char)
    (hw : ∀ c ∈ w, isJsonWs c = true) : lex (w ++ s) = lex s := by
  suffices haux : ∀ (w2 : List Char) (n : Nat), (∀ c ∈ w2, isJsonWs c = true) →
      (w2 ++ s).length ≤ n → lexLoop n (w2 ++ s) = lex s by
    exact haux w (w ++ s).length hw le_rfl
  intro w2
  induction w2 with
  | nil =>
    intro n _ hn
    exact lexLoop_mono n s.length s (by simpa using hn) le_rfl
  | cons c w2 ih =>
    intro n hws hn
    cases n with
    | zero => simp at hn
    | succ n' =>
      show lexLoop (n' + 1) (c :: (w2 ++ s)) = lex s
      simp only [lexLoop]
      rw [if_pos (hws c (by simp))]
      exact ih n' (fun x hx => hws x (by simp [hx]))
        (by simp only [List.cons_append, List.length_cons] at hn; omega)

theorem lex_cons_tok (c : Char) (cs : List Char) (t : Tok)
    (rest : List Char) (ts : List Tok) (hws : isJsonWs c = false)
    (ht : lexTok (c :: cs) = some (t, rest)) (hrest : lex rest = some ts) :
    lex (c :: cs) = some (t :: ts) := by
  show lexLoop (c :: cs).length (c :: cs) = _
  simp only [List.length_cons, lexLoop]
  rw [if_neg (by simp [hws]), ht]
  show (match lexLoop cs.length rest with
    | some ts0 => some (t :: ts0)
    | none => none) = some (t :: ts)
  rw [lexLoop_mono cs.length rest.length rest
      (lexTok_shorter c cs t rest ht) le_rfl,
    show lexLoop rest.length rest = some ts from hrest]

theorem lex_cons_elim (c : Char) (cs : List Char) (ts : List Tok)
    (h : lex (c :: cs) = some ts) :
    (isJsonWs c = true ∧ lex cs = some ts) ∨
    (isJsonWs c = false ∧ ∃ t rest ts', lexTok (c :: cs) = some (t, rest) ∧
      lex rest = some ts' ∧ ts = t :: ts') := by
  have h' : lexLoop (cs.length + 1) (c :: cs) = some ts := h
  simp only [lexLoop] at h'
  cases hb : isJsonWs c with
  | true =>
    rw [if_pos hb] at h'
    exact Or.inl ⟨rfl, h'⟩
  | false =>
    rw [if_neg (by simp [hb])] at h'
    cases hlex : lexTok (c :: cs) with
    | none => rw [hlex] at h'; simp at h'
    | some pr =>
      obtain ⟨t, rest⟩ := pr
      rw [hlex] at h'
      replace h' : (match lexLoop cs.length rest with
        | some ts' => some (t :: ts')
        | none => none) = some ts := h'
      cases hll : lexLoop cs.length rest with
      | none => rw [hll] at h'; simp at h'
      | some ts' =>
        rw [hll] at h'
        simp only [Option.some.injEq] at h'
        refine Or.inr ⟨rfl, t, rest, ts', rfl, ?_, h'.symm⟩
        rw [show lex rest = lexLoop rest.length rest from rfl,
          lexLoop_mono rest.length cs.length rest le_rfl
            (lexTok_shorter c cs t rest hlex)]
        exact hll

/- Every successfully lexed text splits as leading whitespace, a core
that lexes to the same tokens and whose end characters are not even
JavaScript whitespace, and trailing whitespace. -/
theorem lex_decomp : ∀ (n : Nat) (s : List Char) (ts : List Tok),
    s.length ≤ n → lex s = some ts →
    ∃ w1 core w2, s = w1 ++ core ++ w2 ∧
      (∀ c ∈ w1, isJsonWs c = true) ∧ (∀ c ∈ w2, isJsonWs c = true) ∧
      lex core = some ts ∧ (core = [] → ts = []) ∧
      (core ≠ [] → isJsWs (core.headD ' ') = false ∧
        isJsWs (core.getLastD ' ') = false) := by
  intro n
  induction n with
  | zero =>
    intro s ts hn h
    have hnil : s = [] := List.eq_nil_of_length_eq_zero (Nat.le_zero.mp hn)
    subst hnil
    have hts : ts = [] := by
      have : (some [] : Option (List Tok)) = some ts := h
      simpa using this.symm
    subst hts
    exact ⟨[], [], [], rfl, by simp, by simp, rfl, fun _ => rfl,
      fun hcontra => absurd rfl hcontra⟩
  | succ n ih =>
    intro s ts hn h
    cases s with
    | nil =>
      have hts : ts = [] := by
        have : (some [] : Option (List Tok)) = some ts := h
        simpa using this.symm
      subst hts
      exact ⟨[], [], [], rfl, by simp, by simp, rfl, fun _ => rfl,
        fun hcontra => absurd rfl hcontra⟩
    | cons c cs =>
      have hcs : cs.length ≤ n := by
        simp only [List.length_cons] at hn
        omega
      rcases lex_cons_elim c cs ts h with ⟨hws, hcs2⟩ |
        ⟨hws, t, rest, ts', hlex, hrest, rfl⟩
      · obtain ⟨w1, core, w2, hdec, hw1, hw2, hcore, hc1, hc2⟩ :=
          ih cs ts hcs hcs2
        refine ⟨c :: w1, core, w2, by rw [hdec]; rfl, ?_, hw2, hcore,
          hc1, hc2⟩
        intro x hx
        rcases List.mem_cons.mp hx with rfl | hx'
        · exact hws
        · exact hw1 x hx'
      · obtain ⟨mid, hmid, hcws, hlast⟩ := lexTok_spec c cs t rest hlex
        have hcjson : isJsonWs c = false := not_jsWs_not_jsonWs c hcws
        have hrlen : rest.length ≤ n :=
          le_trans (lexTok_shorter c cs t rest hlex) hcs
        obtain ⟨w1', core', w2', hdec', hw1', hw2', hcore', hc1', hc2'⟩ :=
          ih rest ts' hrlen hrest
        have hlexmid : lexTok (c :: (mid ++ rest)) = some (t, rest) := by
          rw [← hmid]
          exact hlex
        by_cases hcn : core' = []
        · subst hcn
          have hts' : ts' = [] := hc1' rfl
          subst hts'
          have hrestws : ∀ x ∈ rest, isJsonWs x = true := by
            intro x hx
            rw [hdec'] at hx
            simp only [List.append_nil, List.nil_append,
              List.mem_append] at hx
            rcases hx with hx | hx
            · exact hw1' x hx
            · exact hw2' x hx
          have htok : lexTok (c :: (mid ++ [])) = some (t, []) :=
            lexTok_pdet c mid rest t hlexmid [] rest rfl
          rw [List.append_nil] at htok
          refine ⟨[], c :: mid, rest, ?_, by simp, hrestws, ?_, ?_, ?_⟩
          · rw [hmid]
            rfl
          · exact lex_cons_tok c mid t [] [] hcjson htok rfl
          · intro habs
            exact absurd habs (by simp)
          · intro _
            exact ⟨by simpa using hcws, hlast⟩
        · have hsplit : rest = (w1' ++ core') ++ w2' := by
            rw [hdec', List.append_assoc]
          have htok : lexTok (c :: (mid ++ (w1' ++ core'))) =
              some (t, w1' ++ core') :=
            lexTok_pdet c mid rest t hlexmid (w1' ++ core') w2' hsplit
          have hlexcore : lex (c :: (mid ++ (w1' ++ core'))) =
              some (t :: ts') :=
            lex_cons_tok c (mid ++ (w1' ++ core')) t (w1' ++ core') ts'
              hcjson htok (by rw [lexSkipLeadingWs w1' core' hw1']; exact hcore')
          refine ⟨[], c :: (mid ++ (w1' ++ core')), w2', ?_, by simp,
            hw2', hlexcore, ?_, ?_⟩
          · rw [hmid, hdec']
            simp
          · intro habs
            exact absurd habs (by simp)
          · intro _
            refine ⟨by simpa using hcws, ?_⟩
            have hassoc : c :: (mid ++ (w1' ++ core')) =
                (c :: (mid ++ w1')) ++ core' := by simp
            rw [hassoc, getLastD_append (c :: (mid ++ w1')) core' hcn ' ']
            exact (hc2' hcn).2

theorem stripLeft_ws (w r : List Char) (hw : ∀ c ∈ w, isJsWs c = true)
    (hr : ∀ c0 cs0, r = c0 :: cs0 → isJsWs c0 = false) :
    stripLeft (w ++ r) = r := by
  unfold stripLeft
  rw [List.dropWhile_append_of_pos hw]
  cases r with
  | nil => rfl
  | cons c0 cs0 => simp [List.dropWhile_cons, hr c0 cs0 rfl]

theorem reverse_headD (l : List Char) (d : Char) :
    l.reverse.headD d = l.getLastD d := by
  rw [List.headD_eq_head?_getD, List.head?_reverse]
  exact (List.getLastD_eq_getLast? d l).symm

theorem stripRight_ws (core w : List Char)
    (hw : ∀ c ∈ w, isJsWs c = true) (hne : core ≠ [])
    (hlast : isJsWs (core.getLastD ' ') = false) :
    stripRight (core ++ w) = core := by
  unfold stripRight
  rw [List.reverse_append, List.dropWhile_append_of_pos
    (fun c hc => hw c (List.mem_reverse.mp hc))]
  cases hrev : core.reverse with
  | nil => exact absurd (List.reverse_eq_nil_iff.mp hrev) hne
  | cons r0 rs =>
    have h1 : core.getLastD ' ' = r0 := by
      rw [← reverse_headD, hrev]
      rfl
    rw [h1] at hlast
    rw [List.dropWhile_cons, hlast]
    simp only [Bool.false_eq_true, if_false]
    rw [← hrev, List.reverse_reverse]

/- The heart of the round-trip claim: JavaScript trim preserves the result
of a successful JSON.parse (the characters it removes beyond JSON
whitespace can only occur where parsing would already have failed). -/
theorem parseJson_trim (s : List Char) (v : Json)
    (h : parseJson s = some v) : parseJson (jsTrim s) = some v := by
  unfold parseJson at h ⊢
  cases hlex : lex s with
  | none => rw [hlex] at h; simp at h
  | some ts =>
    rw [hlex] at h
    replace h : parseToks ts = some v := h
    have hts : ts ≠ [] := by
      intro hnil
      subst hnil
      have hnone : parseToks ([] : List Tok) = none := rfl
      rw [hnone] at h
      cases h
    obtain ⟨w1, core, w2, hdec, hw1, hw2, hcore, hc1, hc2⟩ :=
      lex_decomp s.length s ts le_rfl hlex
    have hcn : core ≠ [] := fun hnil => hts (hc1 hnil)
    obtain ⟨hhead, hlast⟩ := hc2 hcn
    have hstrip : jsTrim s = core := by
      unfold jsTrim
      rw [hdec]
      have hsl : stripLeft (w1 ++ (core ++ w2)) = core ++ w2 := by
        apply stripLeft_ws
        · intro c hc
          exact jsonWs_sub c (hw1 c hc)
        · intro c0 cs0 hc0
          cases core with
          | nil => exact absurd rfl hcn
          | cons d ds =>
            rw [List.cons_append] at hc0
            injection hc0 with h1 _
            rw [← h1]
            simpa using hhead
      rw [show w1 ++ core ++ w2 = w1 ++ (core ++ w2) from by simp, hsl]
      exact stripRight_ws core w2 (fun c hc => jsonWs_sub c (hw2 c hc))
        hcn hlast
    rw [hstrip, hcore]
    exact h

/-- C8: stripping the magic anti-XSSI prefix from the demo body yields
exactly the text that JSON-parses to the object with member a = 1, and
for every body that does not start with the magic prefix the stripped
body (only trimmed) JSON-parses to the same value as the body itself —
the prefix is optional. -/
theorem c8_strip_magic_roundtrip :
    (stripMagic ")]\x7d\x27\n\x7b\"a\":1\x7d".toList =
        "\x7b\"a\":1\x7d".toList ∧
      parseJson (stripMagic ")]\x7d\x27\n\x7b\"a\":1\x7d".toList) =
        some (Json.obj [(['a'], Json.num ['1'])])) ∧
    (∀ (body : List Char) (v : Json),
      magicChars.isPrefixOf body = false → parseJson body = some v →
        parseJson (stripMagic body) = some v) := by
  refine ⟨⟨rfl, rfl⟩, fun body v hpre h => ?_⟩
  rw [stripMagic, if_neg (by simp [hpre])]
  exact parseJson_trim body v h

/-- C8 witness: a body without the prefix but with stray surrounding
whitespace parses unchanged after stripping. -/
theorem c8_strip_magic_roundtrip_witness :
    parseJson (stripMagic " \x7b\"a\":1\x7d ".toList) =
      some (Json.obj [(['a'], Json.num ['1'])]) :=
  c8_strip_magic_roundtrip.2 " \x7b\"a\":1\x7d ".toList
    (Json.obj [(['a'], Json.num ['1'])]) (by rfl) (by rfl)

end Gerrit
